import Mathlib

/-!
Shallow embedding of the sling HTTP client library (package sling):
the JSON request builder (json.go), its request resolution (HTTPRequest)
and response resolution (OnHTTPResponse), the throttled HTTP client with
its channel semaphore (throttled_http_client.go), and the connection pool
construction (connection_pool.go).
-/

namespace Sling

/-- Go `error` values as they occur in this library: `fmt.Errorf`/`errors.New`
string errors, `*json.SyntaxError` from a failed decode (identified by its
offset), and arbitrary caller-supplied error values (identified by a tag so
that distinct registered errors stay distinct). -/
inductive GoError where
  | errorString (msg : String)
  | jsonSyntax (offset : Nat)
  | custom (tag : Nat) (msg : String)
deriving DecidableEq, Repr

/-- True exactly for a `*json.SyntaxError` value. -/
def isJsonSyntax : GoError → Bool
  | .jsonSyntax _ => true
  | _ => false

/-- A caller-registered decode target (the `success`/`failure` fields of
`jsonRequest`, of interface type `JSON`), abstracted by the capabilities the
response resolution inspects with its type switch: it may implement
`Errorable` (then `AsError()` yields the given error), or implement `error`
without `Errorable` (then the value itself is the given error), or neither. -/
inductive Target where
  | errorable (e : GoError)
  | goError (e : GoError)
  | plain
deriving DecidableEq, Repr

/-- A response body, abstracted by the outcome of running
`json.NewDecoder(res.Body).Decode(target)` on it: a malformed body makes the
decoder's scanner fail with a `*json.SyntaxError` (carrying an offset) before
any target is populated; a well-formed body decodes successfully. -/
inductive RespBody where
  | malformed (offset : Nat)
  | wellFormed
deriving DecidableEq, Repr

/-- Model of `json.NewDecoder(res.Body).Decode(target)`: the error result is
determined by the body alone (syntax errors are raised while scanning). -/
def decodeJSON : RespBody → Except GoError Unit
  | .malformed off => .error (.jsonSyntax off)
  | .wellFormed => .ok ()

/-- The fragment of `net/url.URL` that this library exercises: scheme, host
and path (user info, query, fragment and opaque data never occur in its
requests). -/
structure GoURL where
  scheme : String
  host : String
  path : String
deriving DecidableEq, Repr

/-- Model of `(*url.URL).String()` restricted to URLs of the `GoURL`
fragment: `scheme://host` followed by the path when a scheme is present,
otherwise the bare path. -/
def urlString (u : GoURL) : String :=
  if u.scheme = "" then u.path else u.scheme ++ "://" ++ u.host ++ u.path

/-- Model of `net/http.Response` as far as `OnHTTPResponse` reads it: the
status code and the body. -/
structure Response where
  statusCode : Nat
  body : RespBody
deriving DecidableEq, Repr

/-- Model of `textproto.validHeaderFieldByte`: ASCII letters and digits plus
the token punctuation characters (including the apostrophe, code 39, and the
backquote, code 96). -/
def validHeaderFieldByte (c : Char) : Bool :=
  c.isAlphanum ||
  c ∈ ['!', '#', '$', '%', '&', '*', '+', '-', '.', '^', '_', '|', '~'] ||
  c.toNat = 39 || c.toNat = 96

/-- The case-normalization loop of `textproto.canonicalMIMEHeaderKey`: upper
case the first character and every character following a hyphen, lower case
the rest. -/
def canonicalChars : Bool → List Char → List Char
  | _, [] => []
  | upper, c :: rest =>
    let c2 := if upper then c.toUpper else c.toLower
    c2 :: canonicalChars (c2 = '-') rest

/-- Model of `textproto.CanonicalMIMEHeaderKey`, used by `http.Header.Add`
and `http.Header.Set`: a key containing an invalid byte is returned
unchanged, otherwise it is case-normalized. -/
def canonicalMIMEHeaderKey (s : String) : String :=
  if s.data.all validHeaderFieldByte then ⟨canonicalChars true s.data⟩ else s

/-- Model of `net/http.Header` (`map[string][]string` keyed by canonical MIME
header keys) as its extension: the list of values stored under each canonical
key. -/
def HeaderMap : Type := String → List String

/-- A freshly made header map (`make(http.Header)`): no values anywhere. -/
def emptyHeader : HeaderMap := fun _ => []

/-- Model of `http.Header.Add`: append the value to the list stored under the
canonical form of the key. -/
def headerAdd (h : HeaderMap) (name value : String) : HeaderMap :=
  fun k => if k = canonicalMIMEHeaderKey name then h k ++ [value] else h k

/-- Model of `http.Header.Set`: replace whatever is stored under the
canonical form of the key by the single given value. -/
def headerSet (h : HeaderMap) (name value : String) : HeaderMap :=
  fun k => if k = canonicalMIMEHeaderKey name then [value] else h k

/-- All values a header map holds for a (not necessarily canonical) name. -/
def headerValues (h : HeaderMap) (name : String) : List String :=
  h (canonicalMIMEHeaderKey name)

/-- The header-population step of `jsonRequest.HTTPRequest`: the
`for name, values := range request.headers` loop re-`Add`s every entry of the
builder's map into the fresh request header map, which reproduces the
builder's (already canonically keyed) map extensionally and is modelled as
that identity copy; afterwards `Content-Type` and `Accept` are `Set`
unconditionally to `application/json`. -/
def buildRequestHeaders (h : HeaderMap) : HeaderMap :=
  headerSet (headerSet h "Content-Type" "application/json") "Accept" "application/json"

/-- A request body value (the `body JSON` field), abstracted by the outcome
of `json.NewEncoder(buf).Encode(body)` on it: either it serializes to the
given bytes or encoding fails with the given error. -/
inductive ReqBody where
  | encodable (bytes : String)
  | unencodable (e : GoError)
deriving DecidableEq, Repr

/-- Model of the body-serialization step of `HTTPRequest`: no body leaves the
buffer empty; otherwise `Encode` yields the body's bytes or its error. -/
def encodeBody : Option ReqBody → Except GoError String
  | none => .ok ""
  | some (.encodable s) => .ok s
  | some (.unencodable e) => .error e

/-- Model of the `jsonRequest` struct: method, path, optional request body,
optional success and failure decode targets, the `statusErrors` map (an
association list with most-recent-first lookup, matching map overwrite
semantics), the accumulated headers, and the embedded `*url.URL` set during
request resolution. -/
structure JsonRequest where
  method : String
  path : String
  body : Option ReqBody
  success : Option Target
  failure : Option Target
  statusErrors : List (Nat × GoError)
  headers : HeaderMap
  url : GoURL

/-- Model of the `JSONRequest(method, path)` constructor. -/
def JSONRequest (method path : String) : JsonRequest :=
  { method := method
    path := path
    body := none
    success := none
    failure := none
    statusErrors := []
    headers := emptyHeader
    url := { scheme := "", host := "", path := "" } }

/-- Model of the builder's `Header` method (`request.headers.Add`). -/
def JsonRequest.Header (r : JsonRequest) (name value : String) : JsonRequest :=
  { r with headers := headerAdd r.headers name value }

/-- Model of the builder's `Body` method. -/
def JsonRequest.Body (r : JsonRequest) (body : ReqBody) : JsonRequest :=
  { r with body := some body }

/-- Model of the builder's `Response` method: sets both targets. -/
def JsonRequest.Response (r : JsonRequest) (t : Target) : JsonRequest :=
  { r with success := some t, failure := some t }

/-- Model of the builder's `Success` method. -/
def JsonRequest.Success (r : JsonRequest) (t : Target) : JsonRequest :=
  { r with success := some t }

/-- Model of the builder's `Failure` method. -/
def JsonRequest.Failure (r : JsonRequest) (t : Target) : JsonRequest :=
  { r with failure := some t }

/-- Model of the builder's `StatusError` method
(`request.statusErrors[statusCode] = err`; the cons together with
first-match lookup reproduces map overwrite semantics). -/
def JsonRequest.StatusError (r : JsonRequest) (statusCode : Nat) (err : GoError) : JsonRequest :=
  { r with statusErrors := (statusCode, err) :: r.statusErrors }

/-- The default error synthesized at the top of the status-`>= 400` branch of
`OnHTTPResponse`:
`fmt.Errorf("request %s %s as JSON returned status %d", method, URL, status)`. -/
def defaultStatusError (r : JsonRequest) (code : Nat) : GoError :=
  .errorString ("request " ++ r.method ++ " " ++ urlString r.url ++
    " as JSON returned status " ++ toString code)

/-- Model of `jsonRequest.OnHTTPResponse`: below status 400 decode into the
success target if one is registered; at 400 and above return the registered
status override if any, else the default error if no failure target is
registered, else decode into the failure target (a decode error is returned
directly) and convert the decoded target by the `Errorable`/`error` type
switch, falling back to the default error. -/
def OnHTTPResponse (r : JsonRequest) (res : Response) : Option GoError :=
  if res.statusCode < 400 then
    match r.success with
    | some _ =>
      match decodeJSON res.body with
      | .error e => some e
      | .ok _ => none
    | none => none
  else
    let err := defaultStatusError r res.statusCode
    match r.statusErrors.lookup res.statusCode with
    | some e => some e
    | none =>
      match r.failure with
      | none => some err
      | some tgt =>
        match decodeJSON res.body with
        | .error e => some e
        | .ok _ =>
          match tgt with
          | .errorable e => some e
          | .goError e => some e
          | .plain => some err

/-- The error a successfully decoded failure target resolves to under the
`Errorable`/`error` type switch, with the given fallback for a target that is
neither. (Statement-side abbreviation for the type switch at the end of
`OnHTTPResponse`.) -/
def targetError (tgt : Target) (dflt : GoError) : GoError :=
  match tgt with
  | .errorable e => e
  | .goError e => e
  | .plain => dflt

/-- Model of `strings.TrimLeft(path, "/")`: drop every leading slash. -/
def trimLeftSlashes (s : String) : String :=
  ⟨s.data.dropWhile (fun c => c == '/')⟩

/-- Model of `net/url`'s `stringContainsCTLByte`: the string holds a byte
below ASCII space or the DEL byte 0x7f. -/
def containsCTLByte (s : String) : Bool :=
  s.data.any (fun c => c.toNat < 32 || c.toNat == 127)

/-- Model of `net/url.Parse` restricted to the reference strings this library
produces after trimming leading slashes: a string containing an ASCII control
byte fails to parse (Parse's `stringContainsCTLByte` check, returning a nil
URL); the claims otherwise only exercise plain relative references without
scheme, authority, query or fragment, which parse to a relative URL whose
path is the string itself. `net/url` is an external collaborator of this
library; only the behavior the claims exercise is modelled. -/
def parseURL (s : String) : Option GoURL :=
  if containsCTLByte s then none
  else some { scheme := "", host := "", path := s }

/-- Model of `base[:strings.LastIndex(base, "/")+1]`: the prefix of `base` up
to and including its last slash (empty when there is no slash). -/
def takeToLastSlash (s : List Char) : List Char :=
  (s.reverse.dropWhile (fun c => !(c == '/'))).reverse

/-- Model of `strings.Split(full, "/")` (the repeated `strings.Cut` of the
segment loop of `net/url.resolvePath`). -/
def splitOnSlash : List Char → List (List Char)
  | [] => [[]]
  | c :: rest =>
    let r := splitOnSlash rest
    if c = '/' then [] :: r
    else (c :: r.headD []) :: r.tail

/-- One iteration of the segment loop of `net/url.resolvePath`: `dst` is the
string built so far (it always begins with a slash) and `first` records
whether no ordinary segment has been written yet; a `.` segment is dropped, a
`..` segment truncates `dst` at the last slash of `dst[1:]` (resetting it to
the bare slash when there is none), and every other segment is appended. -/
def removeDotStep (acc : List Char × Bool) (elem : List Char) : List Char × Bool :=
  match acc with
  | (dst, first) =>
    if elem = ['.'] then (dst, false)
    else if elem = ['.', '.'] then
      let str := dst.drop 1
      if str.any (fun c => c == '/') then
        ('/' :: (str.reverse.dropWhile (fun c => !(c == '/'))).tail.reverse, first)
      else
        (['/'], true)
    else
      ((if first then dst else dst ++ ['/']) ++ elem, false)

/-- Model of `net/url.resolvePath(base, ref)` on character lists: an empty
`ref` keeps `base`, a rooted `ref` replaces it, a relative `ref` is appended
to `base`'s directory; the full path is then cleaned of `.` and `..` segments
segment by segment, with a trailing slash appended when the last segment was
a dot segment, and a doubled leading slash collapsed. -/
def resolvePathChars (base ref : List Char) : List Char :=
  let full :=
    if ref = [] then base
    else if ref.take 1 = ['/'] then ref
    else takeToLastSlash base ++ ref
  if full = [] then []
  else
    let segs := splitOnSlash full
    let dst := (segs.foldl removeDotStep (['/'], true)).1
    let lastElem := segs.getLastD []
    let dst2 := if lastElem = ['.'] ∨ lastElem = ['.', '.'] then dst ++ ['/'] else dst
    if 1 < dst2.length ∧ (dst2.drop 1).take 1 = ['/'] then dst2.drop 1 else dst2

/-- Model of `net/url.resolvePath(base, ref)`. -/
def resolvePath (base ref : String) : String :=
  ⟨resolvePathChars base.data ref.data⟩

/-- Model of `(*url.URL).ResolveReference` on the `GoURL` fragment (no user
info, opaque data, query or fragment occur): a reference with a scheme or a
host replaces the base up to scheme inheritance, otherwise scheme, host are
inherited and the paths are merged by `resolvePath`. -/
def resolveReference (u ref : GoURL) : GoURL :=
  let scheme := if ref.scheme = "" then u.scheme else ref.scheme
  if ref.scheme ≠ "" ∨ ref.host ≠ "" then
    { scheme := scheme, host := ref.host, path := resolvePath ref.path "" }
  else
    { scheme := scheme, host := u.host, path := resolvePath u.path ref.path }

/-- The URL-resolution step of `HTTPRequest` (json.go lines 117-118): parse
the path with its leading slashes trimmed — the parse error is discarded —
and resolve the result against the base URL; a failed parse yields `none`,
standing for the nil `*url.URL` that is handed to `ResolveReference`. -/
def resolveRequestURL (baseURL : GoURL) (path : String) : Option GoURL :=
  (parseURL (trimLeftSlashes path)).map (resolveReference baseURL)

/-- The parts of the resolved `*http.Request` that `HTTPRequest` populates:
method, URL, headers and serialized body. -/
structure ResolvedRequest where
  method : String
  url : GoURL
  headers : HeaderMap
  body : String

/-- Outcome of `jsonRequest.HTTPRequest`: a run-time panic (the nil `*url.URL`
dereference inside `ResolveReference` after `url.Parse` failed and its error
was discarded), an error return, or the resolved request together with the
mutated builder acting as the responder. -/
inductive RequestOutcome where
  | panic
  | err (e : GoError)
  | ok (req : ResolvedRequest) (responder : JsonRequest)

/-- Model of `jsonRequest.HTTPRequest`: resolve the trimmed path against the
base URL (panicking on the nil reference left by a discarded parse error),
store the resolved URL in the builder, serialize the body (an encoding error
aborts the request), then build the request and apply the headers.
`http.NewRequest`'s method validation is modelled as succeeding; no claim
exercises an invalid method. -/
def HTTPRequest (r : JsonRequest) (baseURL : GoURL) : RequestOutcome :=
  match parseURL (trimLeftSlashes r.path) with
  | none => .panic
  | some ref =>
    let u := resolveReference baseURL ref
    let r2 := { r with url := u }
    match encodeBody r.body with
    | .error e => .err e
    | .ok bodyBytes =>
      .ok { method := r.method, url := u
            headers := buildRequestHeaders r.headers, body := bodyBytes } r2

/-- The resolved request URL of an `HTTPRequest` outcome, when one exists. -/
def RequestOutcome.urlOf : RequestOutcome → Option GoURL
  | .ok req _ => some req.url
  | _ => none

/-- A sequence of fluent `Header` builder calls applied to a builder value. -/
def applyHeaderCalls (r : JsonRequest) (calls : List (String × String)) : JsonRequest :=
  calls.foldl (fun r nv => r.Header nv.1 nv.2) r

/-- Phase of one goroutine running `throttledHTTPClient.Do`: before `Lock`,
holding the permit while the underlying `Do` runs, or finished after the
deferred `Unlock`. -/
inductive Phase where
  | idle
  | inFlight
  | done
deriving DecidableEq

/-- Transition labels of the throttled client: goroutine `i` acquires (the
channel send in `semaphore.Lock`) or releases (the channel receive in
`semaphore.Unlock`). -/
inductive TLabel where
  | acquire (i : Nat)
  | release (i : Nat)
deriving DecidableEq

/-- Small-step semantics of `M` goroutines calling `throttledHTTPClient.Do`
over a buffered channel of capacity `cap` (`make(semaphore, maxRequests)`):
a state is the channel occupancy paired with each goroutine's phase. `Lock`
(a channel send) only steps while the buffer is not full, so a caller facing
a full buffer has no transition — it blocks without spinning or failing; the
deferred `Unlock` (a channel receive, run on every exit path of `Do`
regardless of the underlying call's outcome) takes an in-flight goroutine to
done and frees one slot. -/
inductive ThrottleStep (cap : Nat) : TLabel → Nat × List Phase → Nat × List Phase → Prop where
  | acquire (occ : Nat) (ph : List Phase) (i : Nat) :
      occ < cap → ph.get? i = some .idle →
      ThrottleStep cap (.acquire i) (occ, ph) (occ + 1, ph.set i .inFlight)
  | release (occ : Nat) (ph : List Phase) (i : Nat) :
      0 < occ → ph.get? i = some .inFlight →
      ThrottleStep cap (.release i) (occ, ph) (occ - 1, ph.set i .done)

/-- The states reachable from `M` idle callers and an empty channel. -/
def ThrottleReach (cap M : Nat) (s : Nat × List Phase) : Prop :=
  Relation.ReflTransGen (fun a b => ∃ l, ThrottleStep cap l a b)
    (0, List.replicate M .idle) s

/-- The number of callers whose underlying `Do` call is in flight. -/
def inFlightCount (ph : List Phase) : Nat :=
  ph.countP (fun p => p == Phase.inFlight)

/-- Model of `DefaultPoolSize`, the default maximum number of outbound
connections (connection_pool.go). -/
def DefaultPoolSize : Int := 8

/-- Model of `Config`: the pool size (a Go `int`, so possibly non-positive)
and the TLS-verification-skip flag. -/
structure Config where
  PoolSize : Int
  SkipSSLValidation : Bool
deriving DecidableEq

/-- Model of `throttledHTTPClient` as far as construction is concerned: the
capacity of the buffered channel created by `make(semaphore, maxRequests)`
(the wrapped `net/http` client is an external collaborator). -/
structure ThrottledHTTPClient where
  semaphoreCapacity : Int
deriving DecidableEq

/-- Model of `newThrottledHTTPClient(client, maxRequests)`. -/
def newThrottledHTTPClient (maxRequests : Int) : ThrottledHTTPClient :=
  { semaphoreCapacity := maxRequests }

/-- Model of the `pool` struct: its configuration and its single throttled
client shared by every handle the pool produces. -/
structure Pool where
  config : Config
  client : ThrottledHTTPClient

/-- Model of `NewConnectionPool`: clamp a non-positive `PoolSize` to the
default, then build the one throttled client with that pool size (the same
value also configures `MaxIdleConnsPerHost` on the transport, not
modelled). -/
def NewConnectionPool (config : Config) : Pool :=
  let poolSize := if config.PoolSize ≤ 0 then DefaultPoolSize else config.PoolSize
  { config := config, client := newThrottledHTTPClient poolSize }

end Sling

namespace Sling

theorem applyHeaderCalls_headers (r : JsonRequest) (calls : List (String × String)) :
    (applyHeaderCalls r calls).headers =
      calls.foldl (fun h nv => headerAdd h nv.1 nv.2) r.headers := by
  induction calls generalizing r with
  | nil => rfl
  | cons nv rest ih =>
    rw [applyHeaderCalls, List.foldl_cons]
    rw [show rest.foldl (fun r nv => r.Header nv.1 nv.2) (r.Header nv.1 nv.2) =
      applyHeaderCalls (r.Header nv.1 nv.2) rest from rfl]
    rw [ih]
    rfl

theorem foldl_headerAdd_apply (calls : List (String × String)) (h0 : HeaderMap) (k : String) :
    (calls.foldl (fun h nv => headerAdd h nv.1 nv.2) h0) k =
      h0 k ++ (calls.filter (fun nv => canonicalMIMEHeaderKey nv.1 == k)).map Prod.snd := by
  induction calls generalizing h0 with
  | nil => simp
  | cons nv rest ih =>
    rw [List.foldl_cons, ih, List.filter_cons]
    by_cases hk : canonicalMIMEHeaderKey nv.1 = k
    · rw [if_pos (by simpa using hk)]
      simp only [headerAdd, if_pos hk.symm, List.map_cons, List.append_assoc,
        List.singleton_append]
    · have hk2 : ¬ (k = canonicalMIMEHeaderKey nv.1) := fun h => hk h.symm
      rw [if_neg (by simpa using hk)]
      simp only [headerAdd, if_neg hk2]

theorem countP_set (f : Phase → Bool) (ph : List Phase) (i : Nat) (old new : Phase)
    (h : ph.get? i = some old) :
    (ph.set i new).countP f + (if f old then 1 else 0) =
      ph.countP f + (if f new then 1 else 0) := by
  induction ph generalizing i with
  | nil => simp at h
  | cons a rest ih =>
    cases i with
    | zero =>
      have ha : a = old := by simpa using h
      subst ha
      simp only [List.set_cons_zero, List.countP_cons]
      omega
    | succ j =>
      have hj : rest.get? j = some old := by simpa using h
      simp only [List.set_cons_succ, List.countP_cons]
      have := ih j hj
      omega

theorem throttle_inv (cap M : Nat) (s : Nat × List Phase) (h : ThrottleReach cap M s) :
    inFlightCount s.2 = s.1 ∧ s.1 ≤ cap := by
  induction h with
  | refl =>
    refine ⟨?_, Nat.zero_le cap⟩
    show (List.replicate M Phase.idle).countP (fun p => p == Phase.inFlight) = 0
    induction M with
    | zero => rfl
    | succ n ihn =>
      rw [List.replicate_succ, List.countP_cons, ihn]
      rfl
  | tail hab hbc ih =>
    obtain ⟨ih1, ih2⟩ := ih
    obtain ⟨l, step⟩ := hbc
    cases step with
    | acquire occ ph i hlt hget =>
      have hcs := countP_set (fun p => p == Phase.inFlight) ph i .idle .inFlight hget
      simp only [inFlightCount] at ih1 ⊢
      simp at hcs
      simp only at ih1 ih2 ⊢
      omega
    | release occ ph i hpos hget =>
      have hcs := countP_set (fun p => p == Phase.inFlight) ph i .inFlight .done hget
      simp only [inFlightCount] at ih1 ⊢
      simp at hcs
      simp only at ih1 ih2 ⊢
      omega

end Sling

namespace Sling

/-- C1: a response with status at least 400 whose exact status code has a
registered override error makes `OnHTTPResponse` return exactly that error,
for every body (decoding is never consulted) and every failure target. -/
theorem statusError_override_wins (r : JsonRequest) (res : Response) (e : GoError)
    (h4 : 400 ≤ res.statusCode)
    (hl : r.statusErrors.lookup res.statusCode = some e) :
    OnHTTPResponse r res = some e := by
  unfold OnHTTPResponse
  rw [if_neg (by omega)]
  rw [hl]

/-- Witness for C1: status 499 with registered error for 499, a malformed
body and a registered failure target still yields exactly the registered
error. -/
theorem statusError_override_wins_witness :
    OnHTTPResponse
      (((JSONRequest "GET" "x").Failure .plain).StatusError 499 (.custom 7 "HTTP 499"))
      { statusCode := 499, body := .malformed 0 } = some (.custom 7 "HTTP 499") :=
  statusError_override_wins _ _ _ (by decide) (by decide)

/-- Counterexample to C5 as stated: a status-404 response with an unparsable
body, no registered failure target and no status override does satisfy the
claim's premises, yet the returned error is the default synthesized error and
not a JSON syntax error (mapping `isJsonSyntax` over the result gives
`some false`). -/
theorem no_failure_target_default_error_counterexample :
    ((JSONRequest "GET" "x").failure = none ∧
      (JSONRequest "GET" "x").statusErrors = [] ∧
      (400 : Nat) ≤ 404) ∧
    Option.map isJsonSyntax
      (OnHTTPResponse (JSONRequest "GET" "x") { statusCode := 404, body := .malformed 3 }) =
      some false := by
  constructor
  · exact ⟨rfl, rfl, by omega⟩
  · rfl

/-- C5 (amended): for a response with status at least 400 whose body is not
valid JSON and with no matching status override, `OnHTTPResponse` returns the
JSON syntax error of the decode attempt, unwrapped, when a failure target is
registered; when no failure target is registered no decode is attempted and
the default synthesized error is returned instead. -/
theorem malformed_body_error_amended (r : JsonRequest) (res : Response) (off : Nat)
    (h4 : 400 ≤ res.statusCode)
    (ho : r.statusErrors.lookup res.statusCode = none)
    (hb : res.body = .malformed off) :
    OnHTTPResponse r res =
      match r.failure with
      | none => some (defaultStatusError r res.statusCode)
      | some _ => some (.jsonSyntax off) := by
  unfold OnHTTPResponse
  rw [if_neg (by omega), ho, hb]
  cases r.failure <;> rfl

/-- Witness for C5 (amended): status 404, malformed body, a failure target
registered via `Response`, no override: the syntax error is returned. -/
theorem malformed_body_error_amended_witness :
    OnHTTPResponse ((JSONRequest "GET" "x").Response .plain)
      { statusCode := 404, body := .malformed 3 } = some (.jsonSyntax 3) :=
  malformed_body_error_amended _ _ 3 (by decide) (by decide) rfl

/-- C6: for a response with status at least 400, no matching status override
and a registered failure target, the body is decoded into the failure target;
a decode failure is returned directly, and on successful decode an
`Errorable` target yields `AsError()`, an `error` target yields itself, and
any other target yields the default synthesized error. -/
theorem failure_target_decode_precedence (r : JsonRequest) (res : Response) (tgt : Target)
    (h4 : 400 ≤ res.statusCode)
    (ho : r.statusErrors.lookup res.statusCode = none)
    (hf : r.failure = some tgt) :
    OnHTTPResponse r res =
      match decodeJSON res.body with
      | .error e => some e
      | .ok _ => some (targetError tgt (defaultStatusError r res.statusCode)) := by
  unfold OnHTTPResponse
  rw [if_neg (by omega), ho, hf]
  cases res.body <;> cases tgt <;> rfl

/-- Witness for C6: status 500 with an `Errorable` failure target whose
`AsError()` has message "Error Message": that error is returned. -/
theorem failure_target_decode_precedence_witness :
    OnHTTPResponse ((JSONRequest "GET" "x").Failure (.errorable (.custom 1 "Error Message")))
      { statusCode := 500, body := .wellFormed } = some (.custom 1 "Error Message") :=
  failure_target_decode_precedence
    ((JSONRequest "GET" "x").Failure (.errorable (.custom 1 "Error Message")))
    { statusCode := 500, body := .wellFormed }
    (.errorable (.custom 1 "Error Message")) (by decide) (by decide) rfl

/-- C7: when neither a status override nor a usable failure-target error
applies (no failure target, or a target that is neither `Errorable` nor an
`error` with a body that decodes), the returned error is exactly
`request <METHOD> <URL> as JSON returned status <CODE>` built from the
request method, the resolved request URL and the numeric status code. -/
theorem default_error_message_format (r : JsonRequest) (res : Response)
    (h4 : 400 ≤ res.statusCode)
    (ho : r.statusErrors.lookup res.statusCode = none)
    (hcase : r.failure = none ∨ (r.failure = some .plain ∧ res.body = .wellFormed)) :
    OnHTTPResponse r res =
      some (.errorString ("request " ++ r.method ++ " " ++ urlString r.url ++
        " as JSON returned status " ++ toString res.statusCode)) := by
  unfold OnHTTPResponse
  rw [if_neg (by omega), ho]
  rcases hcase with hf | ⟨hf, hb⟩
  · rw [hf]
    rfl
  · rw [hf, hb]
    rfl

/-- Witness for C7: method GET, resolved URL http://example.com/doc/x,
status 404, no failure target: the default message with the exact format. -/
theorem default_error_message_format_witness :
    OnHTTPResponse
      { JSONRequest "GET" "x" with url := { scheme := "http", host := "example.com", path := "/doc/x" } }
      { statusCode := 404, body := .malformed 0 } =
      some (.errorString "request GET http://example.com/doc/x as JSON returned status 404") :=
  default_error_message_format _ _ (by decide) (by decide) (Or.inl rfl)

/-- C3: `HTTPRequest` strips the path's leading slashes before resolving it
against the base URL — prefixing a slash to any path never changes the
resolved URL — so the base URL's path segment is kept: base http://h/doc/
with path /some/path resolves to http://h/doc/some/path, and base
http://example.com/doc/ with path some/path resolves to final path
/doc/some/path. -/
theorem httpRequest_path_resolution :
    (∀ (r : JsonRequest) (base : GoURL),
      (HTTPRequest { r with path := "/" ++ r.path } base).urlOf =
        (HTTPRequest r base).urlOf) ∧
    (HTTPRequest (JSONRequest "GET" "/some/path")
        { scheme := "http", host := "h", path := "/doc/" }).urlOf =
      some { scheme := "http", host := "h", path := "/doc/some/path" } ∧
    (HTTPRequest (JSONRequest "GET" "some/path")
        { scheme := "http", host := "example.com", path := "/doc/" }).urlOf =
      some { scheme := "http", host := "example.com", path := "/doc/some/path" } := by
  refine ⟨?_, by decide, by decide⟩
  intro r base
  obtain ⟨m, p, b, s, f, se, hs, u⟩ := r
  have htrim : trimLeftSlashes ("/" ++ p) = trimLeftSlashes p := by
    obtain ⟨l⟩ := p
    rfl
  dsimp only
  unfold HTTPRequest
  dsimp only
  rw [htrim]
  cases parseURL (trimLeftSlashes p) with
  | none => rfl
  | some ref => cases encodeBody b <;> rfl

/-- Counterexample to C4 as stated: for base http://example.com/doc/ and
requested path /some/path the code strips the leading slash before
resolution, so the final resolved path is /doc/some/path — the base URL's
path segment is kept, and the final path is not /some/path. -/
theorem basePath_not_discarded_counterexample :
    (HTTPRequest (JSONRequest "GET" "/some/path")
        { scheme := "http", host := "example.com", path := "/doc/" }).urlOf =
      some { scheme := "http", host := "example.com", path := "/doc/some/path" } ∧
    (HTTPRequest (JSONRequest "GET" "/some/path")
        { scheme := "http", host := "example.com", path := "/doc/" }).urlOf ≠
      some { scheme := "http", host := "example.com", path := "/some/path" } := by
  exact ⟨by decide, by decide⟩

/-- C4 (amended): for base URL http://example.com/doc/ and requested path
/some/path, the final resolved request path equals /doc/some/path: the
leading slash is stripped before resolution, so the base URL's path segment
is kept rather than discarded. -/
theorem basePath_kept_amended :
    (HTTPRequest (JSONRequest "PUT" "/some/path")
        { scheme := "http", host := "example.com", path := "/doc/" }).urlOf =
      some { scheme := "http", host := "example.com", path := "/doc/some/path" } := by
  decide

/-- C10: `HTTPRequest` is not total in its path argument: for a path
containing an ASCII control byte, `url.Parse` fails after the leading slashes
are trimmed, the parse error is silently discarded, and `ResolveReference` is
invoked on the nil parsed URL, so the call panics instead of returning an
error. -/
theorem httpRequest_panics_on_unparsable_path :
    parseURL (trimLeftSlashes "/a\x00b") = none ∧
    HTTPRequest (JSONRequest "GET" "/a\x00b")
      { scheme := "http", host := "example.com", path := "/doc/" } = .panic := by
  exact ⟨rfl, rfl⟩

/-- C8: for every sequence of builder `Header` calls, the resolved request's
headers hold all accumulated values (headers are a multi-valued mapping in
which duplicate names survive, in call order), except that `Content-Type` and
`Accept` are set unconditionally to exactly `application/json`, overriding
any equally-named header set earlier by the caller. -/
theorem json_headers_override (m p name : String) (calls : List (String × String))
    (h1 : canonicalMIMEHeaderKey name ≠ "Content-Type")
    (h2 : canonicalMIMEHeaderKey name ≠ "Accept") :
    headerValues (buildRequestHeaders (applyHeaderCalls (JSONRequest m p) calls).headers)
        "Content-Type" = ["application/json"] ∧
    headerValues (buildRequestHeaders (applyHeaderCalls (JSONRequest m p) calls).headers)
        "Accept" = ["application/json"] ∧
    headerValues (buildRequestHeaders (applyHeaderCalls (JSONRequest m p) calls).headers)
        name = headerValues (applyHeaderCalls (JSONRequest m p) calls).headers name ∧
    headerValues (applyHeaderCalls (JSONRequest m p) calls).headers name =
      (calls.filter
        (fun nv => canonicalMIMEHeaderKey nv.1 == canonicalMIMEHeaderKey name)).map
        Prod.snd := by
  have cCT : canonicalMIMEHeaderKey "Content-Type" = "Content-Type" := by decide
  have cA : canonicalMIMEHeaderKey "Accept" = "Accept" := by decide
  refine ⟨?_, ?_, ?_, ?_⟩
  · simp only [headerValues, buildRequestHeaders, headerSet, cCT, cA]
    simp
  · simp only [headerValues, buildRequestHeaders, headerSet, cCT, cA]
    simp
  · simp only [headerValues, buildRequestHeaders, headerSet, cCT, cA]
    rw [if_neg h2, if_neg h1]
  · simp only [headerValues, applyHeaderCalls_headers, foldl_headerAdd_apply]
    rfl

/-- Witness for C8: three Header calls, two of them canonically equal
duplicates of `X-Test` and one an early `accept` header: the duplicates both
survive in order while `Accept` and `Content-Type` end exactly at
`application/json`. -/
theorem json_headers_override_witness :
    headerValues (buildRequestHeaders (applyHeaderCalls (JSONRequest "GET" "x")
        [("x-test", "a"), ("X-Test", "b"), ("accept", "c")]).headers)
      "Content-Type" = ["application/json"] ∧
    headerValues (buildRequestHeaders (applyHeaderCalls (JSONRequest "GET" "x")
        [("x-test", "a"), ("X-Test", "b"), ("accept", "c")]).headers)
      "Accept" = ["application/json"] ∧
    headerValues (buildRequestHeaders (applyHeaderCalls (JSONRequest "GET" "x")
        [("x-test", "a"), ("X-Test", "b"), ("accept", "c")]).headers)
      "X-Test" = headerValues (applyHeaderCalls (JSONRequest "GET" "x")
        [("x-test", "a"), ("X-Test", "b"), ("accept", "c")]).headers "X-Test" ∧
    headerValues (applyHeaderCalls (JSONRequest "GET" "x")
        [("x-test", "a"), ("X-Test", "b"), ("accept", "c")]).headers "X-Test" = ["a", "b"] :=
  json_headers_override "GET" "x" "X-Test"
    [("x-test", "a"), ("X-Test", "b"), ("accept", "c")] (by decide) (by decide)

/-- C2: in every state the throttled client can reach from `M` idle callers,
at most `cap` underlying calls are in flight; when the channel is full no
caller can acquire (it blocks rather than spinning or failing); and a caller
that has released its permit takes no further acquire or release step, so the
permit is released exactly once per acquire, on every exit path. -/
theorem throttled_executor_concurrency_bound (cap M : Nat) (s : Nat × List Phase)
    (h : ThrottleReach cap M s) :
    inFlightCount s.2 ≤ cap ∧
    (s.1 = cap → ∀ i t, ¬ ThrottleStep cap (.acquire i) s t) ∧
    (∀ i, s.2.get? i = some .done → ∀ l t, ThrottleStep cap l s t →
      l ≠ .acquire i ∧ l ≠ .release i) := by
  obtain ⟨h1, h2⟩ := throttle_inv cap M s h
  refine ⟨by omega, ?_, ?_⟩
  · intro hfull i t hstep
    cases hstep with
    | acquire occ ph j hlt hget =>
      simp only at hfull
      omega
  · intro i hdone l t hstep
    cases hstep with
    | acquire occ ph j hlt hget =>
      simp only at hdone
      refine ⟨?_, fun heq => TLabel.noConfusion heq⟩
      intro heq
      cases heq
      rw [hget] at hdone
      simp at hdone
    | release occ ph j hpos hget =>
      simp only at hdone
      refine ⟨fun heq => TLabel.noConfusion heq, ?_⟩
      intro heq
      cases heq
      rw [hget] at hdone
      simp at hdone

/-- Witness for C2: with capacity 1 and two callers, the state with one call
in flight is reachable by one acquire step, and there the bound, the
blocked-acquire property and the no-step-after-done property all hold. -/
theorem throttled_executor_concurrency_bound_witness :
    inFlightCount [Phase.inFlight, Phase.idle] ≤ 1 ∧
    ((1 : Nat) = 1 → ∀ i t, ¬ ThrottleStep 1 (.acquire i) (1, [Phase.inFlight, Phase.idle]) t) ∧
    (∀ i, [Phase.inFlight, Phase.idle].get? i = some .done →
      ∀ l t, ThrottleStep 1 l (1, [Phase.inFlight, Phase.idle]) t →
        l ≠ .acquire i ∧ l ≠ .release i) :=
  throttled_executor_concurrency_bound 1 2 (1, [Phase.inFlight, Phase.idle])
    (Relation.ReflTransGen.single
      ⟨.acquire 0, ThrottleStep.acquire 0 [Phase.idle, Phase.idle] 0 (by decide) rfl⟩)

/-- C9: `NewConnectionPool` builds its throttled client — and hence the
admission semaphore — with capacity `PoolSize` when that is positive and
with the documented default 8 when `PoolSize` is zero or negative. -/
theorem pool_size_clamp (config : Config) :
    (NewConnectionPool config).client.semaphoreCapacity =
      if config.PoolSize ≤ 0 then 8 else config.PoolSize := rfl

end Sling
